import Mathlib

/-!
Verification development for the bigquery-runner VS Code extension
(scheduled-query subsystem).

Strings of the TypeScript source are modelled as `List Char`.  JavaScript
`Map`s are modelled as association lists with JS `Map.set` semantics
(replace in place, else append).  The Google Cloud SDK calls and the
JavaScript `Date`-string parser are modelled as oracles carried in an
environment record; everything the repository itself implements is
translated directly from the source.

Sources embedded here:
  - packages/extension/src/schedule/dtsClient.ts
  - packages/extension/src/schedule/scheduleProvider.ts
  - packages/extension/src/tree.ts (the fuzzyMatch helper)
-/

/-- Shorthand turning a Lean string literal into the `List Char` that models
a JavaScript string. -/
def strL (s : String) : List Char := s.data

/-- Model of `String.prototype.toLowerCase` (per-code-point lowering). -/
def lowerStr (l : List Char) : List Char := l.map Char.toLower

/-- Whitespace predicate backing the model of `String.prototype.trim`. -/
def isWSChar (c : Char) : Bool := c.isWhitespace

/-- Model of `String.prototype.trim`: drop whitespace on both ends. -/
def trimStr (l : List Char) : List Char :=
  ((l.dropWhile isWSChar).reverse.dropWhile isWSChar).reverse

/-- Model of `hay.includes(needle)` on JavaScript strings: `needle` occurs
contiguously somewhere in `hay`. -/
def includesStr (hay needle : List Char) : Bool :=
  match hay with
  | [] => needle.isEmpty
  | _ :: t => needle.isPrefixOf hay || includesStr t needle

/-- Splitting a string at every character satisfying `p`, as JavaScript
`String.prototype.split` with a single-character regex class does
(`"a__b".split` yields `["a", "", "b"]`; the result is never empty). -/
def splitByP (p : Char → Bool) : List Char → List (List Char)
  | [] => [[]]
  | c :: rest =>
    if p c then [] :: splitByP p rest
    else
      match splitByP p rest with
      | [] => [[c]]
      | q :: qs => (c :: q) :: qs

/-- Separator class `[_\-.]` used by tree.ts's fuzzyMatch. -/
def isSepChar (c : Char) : Bool := c = '_' || c = '-' || c = '.'

/-- Greedy in-order scan from scheduleProvider.ts's fuzzyMatch: walk the
target once, advancing a cursor into the search string on every character
match, and succeed when the cursor reaches the end of the search string. -/
def subseqGreedy : List Char → List Char → Bool
  | [], _ => true
  | _ :: _, [] => false
  | a :: s, b :: t => if b = a then subseqGreedy s t else subseqGreedy (a :: s) t

/-- scheduleProvider.ts `fuzzyMatch` (lines 104-122): reject when either
string is empty, accept a case-insensitive substring, otherwise accept when
all characters of the search appear in order in the target.  The source's
early-return chain is written as a boolean disjunction. -/
def schedFuzzyMatch (search target : List Char) : Bool :=
  if search.isEmpty || target.isEmpty then false
  else
    includesStr (lowerStr target) (lowerStr search) ||
      subseqGreedy (lowerStr search) (lowerStr target)

/-- tree.ts `fuzzyMatch` (lines 101-123): lowercase and trim the search
term, accept everything when it is empty, then try exact match, startsWith,
includes, and finally the same three tests against each `[_\-.]`-separated
part of the target.  Early returns are written as a boolean disjunction. -/
def treeFuzzyMatch (searchTerm text : List Char) : Bool :=
  let search := trimStr (lowerStr searchTerm)
  let target := lowerStr text
  search.isEmpty ||
    target == search ||
    search.isPrefixOf target ||
    includesStr target search ||
    (splitByP isSepChar target).any fun part =>
      part == search || search.isPrefixOf part || includesStr part search

/-- Tokens of a string in the sense of the specification's
"token-containment" wording: the nonempty `[_\-.]`-separated parts. -/
def specTokens (l : List Char) : List (List Char) :=
  (splitByP isSepChar l).filter fun p => !p.isEmpty

/-- Matching predicate written from the specification's words ("substring or
every token of the search contained in some token of the target"), used to
compare the claim against the code's actual matchers. -/
def claimedFuzzyMatch (s t : List Char) : Bool :=
  includesStr (lowerStr t) (lowerStr s) ||
    (specTokens (lowerStr s)).all fun tok =>
      (specTokens (lowerStr t)).any fun tt => includesStr tt tok

/-- Decimal digit character (only ever applied to values below 10). -/
def digitChar (d : Nat) : Char :=
  match d with
  | 0 => '0' | 1 => '1' | 2 => '2' | 3 => '3' | 4 => '4'
  | 5 => '5' | 6 => '6' | 7 => '7' | 8 => '8' | _ => '9'

/-- Fuel-driven digit expansion; `fuel` strictly exceeds the value, so the
base case is unreachable. -/
def natToCharsGo (fuel n : Nat) : List Char :=
  match fuel with
  | 0 => []
  | fuel' + 1 =>
    if n < 10 then [digitChar n]
    else natToCharsGo fuel' (n / 10) ++ [digitChar (n % 10)]

/-- Decimal rendering of a natural number, modelling the JavaScript
string interpolation of a nonnegative integer. -/
def natToChars (n : Nat) : List Char := natToCharsGo (n + 1) n

/-- Decimal reading used to prove that `natToChars` is injective. -/
def charsToNat (l : List Char) : Nat :=
  l.foldl (fun acc c => 10 * acc + (c.toNat - 48)) 0

/-- Left-pad a decimal rendering with zeros to width `w`. -/
def padNat (w n : Nat) : List Char :=
  List.replicate (w - (natToChars n).length) '0' ++ natToChars n

/-!  Model of the JavaScript `Date` layer used by dtsClient.ts.

A JavaScript `Date` is a time value: either NaN (invalid) or an integral
number of milliseconds since the Unix epoch, clipped to ±8.64e15.  We model
it as `Option Int` (`none` = invalid).  The host timezone is modelled as
UTC, so `getFullYear` agrees with the UTC year used by `toISOString`.  The
civil-calendar arithmetic is the standard proleptic-Gregorian conversion
used by ECMAScript time values. -/

/-- Model of `new Date(ms)`: clip to the ECMAScript time range. -/
def mkDate (ms : Int) : Option Int :=
  if ms.natAbs ≤ 8640000000000000 then some ms else none

/-- Civil date (year, month, day) of a day count relative to 1970-01-01,
proleptic Gregorian calendar. -/
def civilFromDays (z0 : Int) : Int × Nat × Nat :=
  let z := z0 + 719468
  let era : Int := Int.fdiv z 146097
  let doe : Nat := (z - era * 146097).toNat
  let yoe : Nat := (doe - doe / 1460 + doe / 36524 - doe / 146096) / 365
  let y : Int := (yoe : Int) + era * 400
  let doy : Nat := doe - (365 * yoe + yoe / 4 - yoe / 100)
  let mp : Nat := (5 * doy + 2) / 153
  let d : Nat := doy - (153 * mp + 2) / 5 + 1
  let m : Nat := if mp < 10 then mp + 3 else mp - 9
  (if m ≤ 2 then y + 1 else y, m, d)

/-- Model of `Date.prototype.getFullYear` (host timezone modelled as UTC). -/
def yearOfMillis (ms : Int) : Int :=
  (civilFromDays (Int.fdiv ms 86400000)).1

/-- Model of `Date.prototype.toISOString`. -/
def isoStringOfMillis (ms : Int) : List Char :=
  let days := Int.fdiv ms 86400000
  let tod : Nat := (ms - days * 86400000).toNat
  let c := civilFromDays days
  let yearChars :=
    if 0 ≤ c.1 ∧ c.1 ≤ 9999 then padNat 4 c.1.toNat
    else (if c.1 < 0 then ['-'] else ['+']) ++ padNat 6 c.1.natAbs
  yearChars ++ '-' :: padNat 2 c.2.1 ++ '-' :: padNat 2 c.2.2 ++
    'T' :: padNat 2 (tod / 3600000) ++ ':' :: padNat 2 (tod / 60000 % 60) ++
    ':' :: padNat 2 (tod / 1000 % 60) ++ '.' :: padNat 3 (tod % 1000) ++ ['Z']

/-- The shapes of JavaScript value that `formatDate`/`convertTimestamp`
distinguish.  `nullish` stands for any falsy non-string non-number input
(null, undefined, false, NaN); `dateObj`/`withToDate` carry the underlying
time value of the `Date` they denote (`none` = invalid); `otherObj` is any
other object carrying none of the recognized fields. -/
inductive DateValue where
  | nullish
  | str (s : List Char)
  | num (n : Int)
  | dateObj (d : Option Int)
  | protoTS (seconds : Option Int) (nanos : Option Int)
  | withToDate (d : Option Int)
  | withToJSON (j : List Char)
  | objValue (v : DateValue)
  | objTimestamp (v : DateValue)
  | objSeconds (s : Int) (ns : Option Int)
  | otherObj
deriving DecidableEq

/-- JavaScript truthiness of a `DateValue` (`!dateValue`). -/
def jsFalsy : DateValue → Bool
  | .nullish => true
  | .str s => s.isEmpty
  | .num n => n = 0
  | _ => false

/-- Milliseconds `seconds * 1000 + nanos / 1e6` computed by the proto
branches; the JavaScript float division followed by `Date`'s integral
clipping is modelled with truncating integer division. -/
def protoMillis (s ns : Int) : Int := s * 1000 + Int.tdiv ns 1000000

/-- Final validation step of `formatDate` (dtsClient.ts lines 324-331):
reject an invalid date, accept only years 2000..2100, and render with
`toISOString`. -/
def validateDate : Option Int → List Char
  | none => strL "Invalid Date"
  | some ms =>
    if 2000 ≤ yearOfMillis ms ∧ yearOfMillis ms ≤ 2100 then isoStringOfMillis ms
    else strL "Invalid Date"

/-- dtsClient.ts `formatDate` (lines 266-340).  `parse` models the host's
`new Date(string)` parser.  The branch order of the source only matters for
overlapping input shapes, which the constructors of `DateValue` keep apart;
the leading falsiness test is reflected in the `nullish`/`str`/`num` cases.
The source's try/catch cannot fire in this total model. -/
def formatDate (parse : List Char → Option Int) : DateValue → List Char
  | .nullish => strL "N/A"
  | .str s =>
    if s.isEmpty then strL "N/A"
    else if (trimStr s).isEmpty then strL "N/A"
    else validateDate (parse s)
  | .num n =>
    if n = 0 then strL "N/A"
    else validateDate (mkDate (if n > 10000000000 then n else n * 1000))
  | .dateObj d => validateDate d
  | .protoTS sec ns =>
    if sec.isSome || ns.isSome then
      validateDate (mkDate (protoMillis (sec.getD 0) (ns.getD 0)))
    else strL "Invalid Date"
  | .withToDate d => validateDate d
  | .withToJSON j => validateDate (parse j)
  | .objValue v => formatDate parse v
  | .objTimestamp v => formatDate parse v
  | .objSeconds s ns => validateDate (mkDate (protoMillis s (ns.getD 0)))
  | .otherObj => strL "Invalid Date"

/-- dtsClient.ts `convertTimestamp` (lines 347-370): a direct proto-format
branch without the year-range check, then fallback to `formatDate`, mapping
"Invalid Date" to null. -/
def convertTimestamp (parse : List Char → Option Int) (t : DateValue) :
    Option (List Char) :=
  if jsFalsy t then none
  else
    match t with
    | .protoTS (some s) ns =>
      match mkDate (protoMillis s (ns.getD 0)) with
      | some ms => some (isoStringOfMillis ms)
      | none =>
        let f := formatDate parse t
        if f = strL "Invalid Date" then none else some f
    | v =>
      let f := formatDate parse v
      if f = strL "Invalid Date" then none else some f

/-!  Model of `DTSClient` (dtsClient.ts). -/

/-- Input type of `stateToString`: a `TransferState` arrives either as a
string, as null/undefined, or as a numeric enum value. -/
inductive StateInput where
  | str (s : List Char)
  | nullish
  | enum (n : Int)
deriving DecidableEq

/-- dtsClient.ts `stateToString` (lines 430-450): strings pass through,
null/undefined become "UNKNOWN", the numeric enum values 1..5 map through
`stateMap`, and any other number falls back to "UNKNOWN". -/
def stateToString : StateInput → List Char
  | .str s => s
  | .nullish => strL "UNKNOWN"
  | .enum n =>
    if n = 1 then strL "PENDING"
    else if n = 2 then strL "RUNNING"
    else if n = 3 then strL "SUCCEEDED"
    else if n = 4 then strL "FAILED"
    else if n = 5 then strL "CANCELLED"
    else strL "UNKNOWN"

/-- dtsClient.ts `extractRunId` (lines 253-259): the part of a run name
after the last '/'.  Call sites normalize null/undefined to "" with
`run.name ?? ""`, so the falsy guard is the empty-string test. -/
def extractRunId (runName : List Char) : List Char :=
  if runName.isEmpty then []
  else ((splitByP (fun c => c = '/') runName).getLast?).getD []

/-- Status object of a BigQuery job as delivered by the SDK metadata. -/
structure JobStatusM where
  state : List Char
  errorMessage : Option (List Char)
deriving DecidableEq

/-- Statistics object of a BigQuery job as delivered by the SDK metadata. -/
structure JobStatsM where
  totalBytesProcessed : Option (List Char)
  totalBytesBilled : Option (List Char)
  startTime : DateValue
  endTime : DateValue
  creationTime : DateValue
deriving DecidableEq

/-- Raw job metadata the BigQuery SDK hands back for a job lookup. -/
structure JobMeta where
  jobId : Option (List Char)
  status : Option JobStatusM
  statistics : Option JobStatsM
  configuration : Option (List Char)
deriving DecidableEq

/-- Statistics after `findBigQueryJobDetails` converted the timestamp
fields and deleted the null ones (`none` = field removed). -/
structure ProcessedStatsM where
  totalBytesProcessed : Option (List Char)
  totalBytesBilled : Option (List Char)
  startTime : Option (List Char)
  endTime : Option (List Char)
  creationTime : Option (List Char)
deriving DecidableEq

/-- Value assembled by `findBigQueryJobDetails` on success. -/
structure JobDetailsM where
  jobId : Option (List Char)
  status : Option JobStatusM
  statistics : ProcessedStatsM
  configuration : Option (List Char)
deriving DecidableEq

/-- `params.fields` of a transfer run, collapsed to the two string values
the code reads. -/
structure RunParamsM where
  query : Option (List Char)
  destinationTemplate : Option (List Char)
deriving DecidableEq

/-- A transfer run as delivered by the Data Transfer SDK. -/
structure TransferRunM where
  name : Option (List Char)
  state : StateInput
  runTime : DateValue
  endTime : DateValue
  updateTime : DateValue
  params : Option RunParamsM
deriving DecidableEq

/-- dtsClient.ts `RunHistoryDetails` (lines 18-42). -/
structure RunHistoryDetails where
  name : List Char
  runId : List Char
  state : List Char
  startTime : List Char
  endTime : List Char
  updateTime : List Char
  bigQueryJob : Option JobDetailsM
  query : List Char
  destinationTable : List Char
deriving DecidableEq

/-- dtsClient.ts `CacheEntry` (lines 47-51). -/
structure CacheEntry where
  data : List RunHistoryDetails
  timestamp : Int
  expiry : Int
deriving DecidableEq

/-- The `runHistoryCache` map, keyed by the strings `getCacheKey` builds. -/
abbrev Cache := List (List Char × CacheEntry)

/-- Lookup in a JS `Map` modelled as an association list. -/
def cacheGet : Cache → List Char → Option CacheEntry
  | [], _ => none
  | e :: rest, k => if e.1 = k then some e.2 else cacheGet rest k

/-- `Map.set`: replace the entry in place when the key exists, else append. -/
def cacheSet (cache : Cache) (k : List Char) (v : CacheEntry) : Cache :=
  if (cacheGet cache k).isSome then
    cache.map fun e => if e.1 = k then (k, v) else e
  else cache ++ [(k, v)]

/-- dtsClient.ts `CACHE_TTL` (line 61): five minutes in milliseconds. -/
def cacheTTL : Int := 5 * 60 * 1000

/-- dtsClient.ts `getCacheKey` (lines 80-86). -/
def getCacheKey (configName projectId : List Char) (maxResults : Nat) :
    List Char :=
  configName ++ ':' :: projectId ++ ':' :: natToChars maxResults

/-- dtsClient.ts `isCacheValid` (lines 91-93). -/
def isCacheValid (now : Int) (entry : CacheEntry) : Bool :=
  now < entry.expiry

/-- dtsClient.ts `getCachedRunHistory` (lines 98-112). -/
def getCachedRunHistory (cache : Cache) (now : Int)
    (configName projectId : List Char) (maxResults : Nat) :
    Option (List RunHistoryDetails) :=
  match cacheGet cache (getCacheKey configName projectId maxResults) with
  | some entry => if isCacheValid now entry then some entry.data else none
  | none => none

/-- dtsClient.ts `setCachedRunHistory` (lines 117-132). -/
def setCachedRunHistory (cache : Cache) (now : Int)
    (configName projectId : List Char) (maxResults : Nat)
    (data : List RunHistoryDetails) : Cache :=
  cacheSet cache (getCacheKey configName projectId maxResults)
    { data := data, timestamp := now, expiry := now + cacheTTL }

/-- Truthy-arguments branch of `clearCache` (dtsClient.ts lines 139-145):
delete every key starting with `"<configName>:<projectId>:"`. -/
def clearCacheSpecific (cache : Cache) (configName projectId : List Char) :
    Cache :=
  cache.filter fun e =>
    !((configName ++ ':' :: projectId ++ [':']).isPrefixOf e.1)

/-- Else branch of `clearCache` (dtsClient.ts line 148): clear everything. -/
def clearCacheAll (_cache : Cache) : Cache := []

/-- dtsClient.ts `clearCache` (lines 137-151): both arguments are optional
and `if (configName && projectId)` guards the prefix deletion by JS
truthiness, so a missing or empty config name or project ID clears the
whole cache. -/
def clearCache (cache : Cache) (configName projectId : Option (List Char)) :
    Cache :=
  match configName, projectId with
  | some c, some p =>
    if !c.isEmpty && !p.isEmpty then clearCacheSpecific cache c p
    else clearCacheAll cache
  | _, _ => clearCacheAll cache

/-- Request record handed to the SDK's `listTransferConfigs`. -/
structure ListConfigsRequest where
  parent : List Char
  dataSourceIds : List (List Char)
deriving DecidableEq

/-- A transfer config as the schedule layer consumes it. -/
structure TransferConfigM where
  name : Option (List Char)
  displayName : Option (List Char)
  schedule : Option (List Char)
  state : Option (List Char)
deriving DecidableEq

/-- dtsClient.ts `listConfigs` (lines 160-187), with the SDK call as an
oracle.  The second component records the request sent to the SDK
(`none` = the SDK was never invoked). -/
def listConfigs
    (sdk : ListConfigsRequest → Except (List Char) (List TransferConfigM))
    (projectId region : List Char) :
    Except (List Char) (List TransferConfigM) × Option ListConfigsRequest :=
  if projectId.isEmpty || region.isEmpty then
    (.error (strL "Project ID and region are required"), none)
  else
    let parent := strL "projects/" ++ projectId ++ strL "/locations/" ++ region
    let request : ListConfigsRequest :=
      { parent := parent, dataSourceIds := [strL "scheduled_query"] }
    match sdk request with
    | .ok configs => (.ok configs, some request)
    | .error e =>
      (.error (strL "Failed to list scheduled queries: " ++ e), some request)

/-- Environment of a `DTSClient` call: the clock and the vendor SDKs.
`runsOracle` models `client.listTransferRuns` (keyed by parent config name
and page size), `jobOracle` models the BigQuery job lookup (keyed by
project and job id; `none` = the lookup threw), `parse` models the host's
`new Date(string)` parser. -/
structure DTSEnv where
  now : Int
  runsOracle : List Char → Nat → Except (List Char) (List TransferRunM)
  jobOracle : List Char → List Char → Option JobMeta
  parse : List Char → Option Int

/-- dtsClient.ts `listTransferRuns` (lines 222-246). -/
def listTransferRuns (env : DTSEnv) (configName : List Char)
    (maxResults : Nat) : Except (List Char) (List TransferRunM) :=
  if configName.isEmpty then
    .error (strL "Transfer config name is required")
  else
    match env.runsOracle configName maxResults with
    | .ok runs => .ok runs
    | .error e => .error (strL "Failed to list transfer runs: " ++ e)

/-- Conversion of raw statistics inside `findBigQueryJobDetails`
(lines 390-407): start from `{}` when absent, convert the three timestamp
fields, and drop the ones that convert to null. -/
def processStats (parse : List Char → Option Int) :
    Option JobStatsM → ProcessedStatsM
  | none => ⟨none, none, none, none, none⟩
  | some st =>
    { totalBytesProcessed := st.totalBytesProcessed
      totalBytesBilled := st.totalBytesBilled
      startTime := convertTimestamp parse st.startTime
      endTime := convertTimestamp parse st.endTime
      creationTime := convertTimestamp parse st.creationTime }

/-- dtsClient.ts `findBigQueryJobDetails` (lines 379-423): look up the job
`scheduled_query_<runId>`; any error is caught and becomes `none`. -/
def findBigQueryJobDetails (env : DTSEnv) (projectId runId : List Char) :
    Option JobDetailsM :=
  match env.jobOracle projectId (strL "scheduled_query_" ++ runId) with
  | none => none
  | some meta =>
    some { jobId := meta.jobId
           status := meta.status
           statistics := processStats env.parse meta.statistics
           configuration := meta.configuration }

/-- One record of the combination loop in `getRunHistory` (lines 496-573).
The source computes `runData`, resolves the job lookups with
`Promise.allSettled` (order-preserving, every promise fulfilled because the
lookup catches internally), and joins the two lists by index; the join is
written here as a single per-run map. -/
def buildRunDetail (env : DTSEnv) (projectId : List Char)
    (run : TransferRunM) : RunHistoryDetails :=
  let runId := extractRunId (run.name.getD [])
  let queryText :=
    match run.params with
    | some ps =>
      match ps.query with
      | some q => if q.isEmpty then [] else q
      | none => []
    | none => []
  let destinationTable :=
    match run.params with
    | some ps =>
      match ps.destinationTemplate with
      | some q => if q.isEmpty then [] else q
      | none => []
    | none => []
  { name := run.name.getD []
    runId := runId
    state := stateToString run.state
    startTime := formatDate env.parse run.runTime
    endTime := formatDate env.parse run.endTime
    updateTime := formatDate env.parse run.updateTime
    bigQueryJob := findBigQueryJobDetails env projectId runId
    query := queryText
    destinationTable := destinationTable }

/-- dtsClient.ts `getRunHistory` (lines 461-589).  Besides the result and
the updated cache, the third component records whether `listTransferRuns`
was invoked. -/
def getRunHistory (env : DTSEnv) (cache : Cache)
    (configName projectId : List Char) (maxResults : Nat) :
    Except (List Char) (List RunHistoryDetails) × Cache × Bool :=
  if configName.isEmpty || projectId.isEmpty then
    (.error (strL "Transfer config name and project ID are required"),
      cache, false)
  else
    match getCachedRunHistory cache env.now configName projectId maxResults with
    | some cached => (.ok cached, cache, false)
    | none =>
      match listTransferRuns env configName maxResults with
      | .error e =>
        (.error (strL "Failed to get run history: " ++ e), cache, true)
      | .ok runs =>
        if runs.isEmpty then (.ok [], cache, true)
        else
          let runDetails := runs.map (buildRunDetail env projectId)
          (.ok runDetails,
            setCachedRunHistory cache env.now configName projectId maxResults
              runDetails,
            true)

/-- The cache-facing operations of `DTSClient`, for stating persistence of
entries across operations. -/
inductive CacheOp where
  | lookup (configName projectId : List Char) (maxResults : Nat)
  | store (configName projectId : List Char) (maxResults : Nat)
      (data : List RunHistoryDetails)
  | clearOne (configName projectId : List Char)
  | clearAll

/-- Effect of each cache operation on the cache map.  `getCachedRunHistory`
only reads the map (dtsClient.ts lines 98-112 perform no mutation), so
`lookup` is the identity. -/
def applyCacheOp (now : Int) (cache : Cache) : CacheOp → Cache
  | .lookup _ _ _ => cache
  | .store c p m d => setCachedRunHistory cache now c p m d
  | .clearOne c p => clearCache cache (some c) (some p)
  | .clearAll => clearCache cache none none

/-!  Model of `ScheduleProvider` (scheduleProvider.ts). -/

/-- Tree items the provider hands to VS Code. -/
inductive SchedItem where
  | plain (label : List Char)
  | region (region : List Char) (projectId : List Char)
  | query (config : TransferConfigM)
  | searchResult (config : TransferConfigM) (region : List Char)
      (projectId : List Char)
deriving DecidableEq

/-- Mutable fields of a `ScheduleProvider`. -/
structure SchedState where
  regions : List (List Char)
  configsByRegion : List (List Char × List TransferConfigM)
  searchFilter : List Char
  projectId : Option (List Char)
deriving DecidableEq

/-- Lookup in the `configsByRegion` map. -/
def regionGet : List (List Char × List TransferConfigM) → List Char →
    Option (List TransferConfigM)
  | [], _ => none
  | e :: rest, k => if e.1 = k then some e.2 else regionGet rest k

/-- `Map.set` on `configsByRegion`. -/
def regionSet (m : List (List Char × List TransferConfigM)) (k : List Char)
    (v : List TransferConfigM) : List (List Char × List TransferConfigM) :=
  if (regionGet m k).isSome then
    m.map fun e => if e.1 = k then (k, v) else e
  else m ++ [(k, v)]

/-- scheduleProvider.ts `refresh` (lines 159-164): drop every cached region
and clear the search filter. -/
def refresh (s : SchedState) : SchedState :=
  { s with configsByRegion := [], searchFilter := [] }

/-- scheduleProvider.ts `setProjectId` (lines 150-154). -/
def setProjectId (p : List Char) (s : SchedState) : SchedState :=
  refresh { s with projectId := some p }

/-- scheduleProvider.ts `setSearchFilter` (lines 169-172). -/
def setSearchFilter (f : List Char) (s : SchedState) : SchedState :=
  { s with searchFilter := f }

/-- scheduleProvider.ts `clearSearch` (lines 184-187). -/
def clearSearch (s : SchedState) : SchedState :=
  { s with searchFilter := [] }

/-- scheduleProvider.ts `getSearchFilter` (lines 177-179). -/
def getSearchFilter (s : SchedState) : List Char × SchedState :=
  (s.searchFilter, s)

/-- scheduleProvider.ts `getTreeItem` (lines 192-194). -/
def getTreeItem (e : SchedItem) (s : SchedState) : SchedItem × SchedState :=
  (e, s)

/-- JavaScript `a || b` on strings: `b` when `a` is null, undefined or
empty, else the string carried by `a`. -/
def jsOr (o : Option (List Char)) (d : List Char) : List Char :=
  match o with
  | none => d
  | some s => if s.isEmpty then d else s

/-- Match test of the search loop (scheduleProvider.ts lines 221-226):
fuzzyMatch against display name (defaulted to "Unnamed Query"), schedule,
or name. -/
def matchesFilter (filter : List Char) (c : TransferConfigM) : Bool :=
  schedFuzzyMatch filter (jsOr c.displayName (strL "Unnamed Query")) ||
    schedFuzzyMatch filter (jsOr c.schedule []) ||
    schedFuzzyMatch filter (jsOr c.name [])

/-- One pass of the search loop over the cached configs, in map iteration
order, pushing a `SearchResultNode` per match. -/
def collectSearchResults (filter pid : List Char)
    (m : List (List Char × List TransferConfigM)) : List SchedItem :=
  m.flatMap fun e =>
    (e.2.filter (matchesFilter filter)).map fun c =>
      SchedItem.searchResult c e.1 pid

/-- Code-point lexicographic string order modelling `localeCompare` in the
host's default locale. -/
def lexLe : List Char → List Char → Bool
  | [], _ => true
  | _ :: _, [] => false
  | a :: as, b :: bs => if a = b then lexLe as bs else decide (a < b)

/-- Comparator of the search-result sort (scheduleProvider.ts lines
279-288): exact (substring) display-name matches first, then display-name
order. -/
def searchResultLE (searchLower : List Char) : SchedItem → SchedItem → Bool
  | .searchResult a _ _, .searchResult b _ _ =>
    let an := jsOr a.displayName []
    let bn := jsOr b.displayName []
    let aExact := includesStr (lowerStr an) searchLower
    let bExact := includesStr (lowerStr bn) searchLower
    if aExact && !bExact then true
    else if !aExact && bExact then false
    else lexLe an bn
  | _, _ => true

/-- Insertion into a sorted list, backing the model of `Array.sort`. -/
def insertLe {α : Type} (le : α → α → Bool) (x : α) : List α → List α
  | [] => [x]
  | y :: ys => if le x y then x :: y :: ys else y :: insertLe le x ys

/-- Model of `Array.prototype.sort` with comparator `le`. -/
def sortByLe {α : Type} (le : α → α → Bool) (l : List α) : List α :=
  l.foldr (insertLe le) []

/-- Environment of the provider: the `DTSClient.listConfigs` SDK oracle.
The provider always goes through `listConfigs`, so the oracle is the
request-level one. -/
structure SchedEnv where
  sdk : ListConfigsRequest → Except (List Char) (List TransferConfigM)

/-- The search branch's bulk load (scheduleProvider.ts lines 236-254): for
every default region not yet cached, call `listConfigs` and store the
result; errors are logged and skipped.  `Promise.all` over the regions is
modelled as a left fold. -/
def loadAllRegions (env : SchedEnv) (pid : List Char) (s : SchedState) :
    SchedState :=
  s.regions.foldl
    (fun st r =>
      if (regionGet st.configsByRegion r).isSome then st
      else
        match (listConfigs env.sdk pid r).1 with
        | .ok cfgs => { st with configsByRegion := regionSet st.configsByRegion r cfgs }
        | .error _ => st)
    s

/-- scheduleProvider.ts `getChildren` (lines 199-394).  Returns the items
and the updated provider state. -/
def providerGetChildren (env : SchedEnv) (s : SchedState)
    (element : Option SchedItem) : List SchedItem × SchedState :=
  match s.projectId with
  | none => ([.plain (strL "No project selected")], s)
  | some pid =>
    if !s.searchFilter.isEmpty && element.isNone then
      let results := collectSearchResults s.searchFilter pid s.configsByRegion
      let loaded :=
        if results.isEmpty && s.configsByRegion.isEmpty then
          let s2 := loadAllRegions env pid s
          (results ++ collectSearchResults s.searchFilter pid s2.configsByRegion,
            s2)
        else (results, s)
      if loaded.1.isEmpty then
        ([.plain (strL "No results found for \"" ++ s.searchFilter ++
            strL "\"")], loaded.2)
      else
        (sortByLe (searchResultLE (lowerStr s.searchFilter)) loaded.1, loaded.2)
    else
      match element with
      | none => (s.regions.map fun r => .region r pid, s)
      | some (.region r _) =>
        match regionGet s.configsByRegion r with
        | some cfgs =>
          if cfgs.isEmpty then ([.plain (strL "No scheduled queries found")], s)
          else (cfgs.map .query, s)
        | none =>
          match (listConfigs env.sdk pid r).1 with
          | .error _ => ([.plain (strL "Error fetching scheduled queries")], s)
          | .ok cfgs =>
            let s' := { s with configsByRegion := regionSet s.configsByRegion r cfgs }
            if cfgs.isEmpty then
              ([.plain (strL "No scheduled queries found")], s')
            else (cfgs.map .query, s')
      | some _ => ([], s)

/-- `List.isPrefixOf` succeeds exactly when the second list extends the
first. -/
theorem isPrefixOf_exists (a b : List Char) :
    a.isPrefixOf b = true ↔ ∃ r, b = a ++ r := by
  induction a generalizing b with
  | nil => simp [List.isPrefixOf]
  | cons x t ih =>
    cases b with
    | nil => simp [List.isPrefixOf]
    | cons y u =>
      simp only [List.isPrefixOf, Bool.and_eq_true, beq_iff_eq, ih,
        List.cons_append, List.cons.injEq]
      constructor
      · rintro ⟨rfl, r, rfl⟩; exact ⟨r, rfl, rfl⟩
      · rintro ⟨r, rfl, rfl⟩; exact ⟨rfl, r, rfl⟩

/-- `includesStr` decides contiguous containment. -/
theorem includesStr_eq_true_iff (hay needle : List Char) :
    includesStr hay needle = true ↔ needle <:+: hay := by
  induction hay with
  | nil =>
    simp only [includesStr, List.isEmpty_iff]
    constructor
    · rintro rfl; exact ⟨[], [], rfl⟩
    · rintro ⟨u, v, h⟩
      have h1 := (List.append_eq_nil.mp h).1
      exact (List.append_eq_nil.mp h1).2
  | cons c t ih =>
    simp only [includesStr, Bool.or_eq_true, ih, isPrefixOf_exists]
    constructor
    · rintro (⟨r, hr⟩ | h)
      · exact ⟨[], r, by simp [hr]⟩
      · obtain ⟨u, v, huv⟩ := h
        exact ⟨c :: u, v, by simp [huv]⟩
    · rintro ⟨u, v, huv⟩
      cases u with
      | nil => exact Or.inl ⟨v, by simpa using huv.symm⟩
      | cons x xs =>
        right
        refine ⟨xs, v, ?_⟩
        simpa using congrArg List.tail huv

/-- The greedy scan of scheduleProvider.ts decides the in-order
subsequence relation. -/
theorem subseqGreedy_eq_true_iff (s t : List Char) :
    subseqGreedy s t = true ↔ s.Sublist t := by
  induction t generalizing s with
  | nil =>
    cases s with
    | nil => simp [subseqGreedy]
    | cons a s' => simp [subseqGreedy]
  | cons b t' ih =>
    cases s with
    | nil => simp [subseqGreedy, List.nil_sublist]
    | cons a s' =>
      by_cases hba : b = a
      · subst hba
        simp [subseqGreedy, ih, List.cons_sublist_cons]
      · rw [subseqGreedy, if_neg hba, ih]
        constructor
        · exact fun h => h.cons b
        · intro h
          cases h with
          | cons _ h' => exact h'
          | cons₂ h' => exact absurd rfl hba

/-- `splitByP` always returns a nonempty list whose head is an initial
segment of the input and whose every part occurs contiguously in the
input. -/
theorem splitByP_spec (p : Char → Bool) (l : List Char) :
    (∃ q qs, splitByP p l = q :: qs ∧ ∃ r, l = q ++ r) ∧
      ∀ part ∈ splitByP p l, part <:+: l := by
  induction l with
  | nil =>
    refine ⟨⟨[], [], rfl, [], rfl⟩, ?_⟩
    intro part hp
    simp [splitByP] at hp
    exact ⟨[], [], by simp [hp]⟩
  | cons c rest ih =>
    obtain ⟨⟨q, qs, hsplit, r, hqr⟩, hparts⟩ := ih
    by_cases hc : p c = true
    · constructor
      · exact ⟨[], splitByP p rest, by simp [splitByP, hc], c :: rest, rfl⟩
      · intro part hp
        simp only [splitByP, hc, if_true, List.mem_cons] at hp
        rcases hp with rfl | hp
        · exact ⟨[], c :: rest, rfl⟩
        · obtain ⟨u, v, huv⟩ := hparts part hp
          exact ⟨c :: u, v, by simp [← huv]⟩
    · have hsplit2 : splitByP p (c :: rest) = (c :: q) :: qs := by
        simp [splitByP, hc, hsplit]
      constructor
      · exact ⟨c :: q, qs, hsplit2, r, by simp [hqr]⟩
      · intro part hp
        rw [hsplit2] at hp
        rcases List.mem_cons.mp hp with h | hp2
        · exact ⟨[], r, by simp [h, hqr]⟩
        · obtain ⟨u, v, huv⟩ := hparts part (by simp [hsplit, hp2])
          exact ⟨c :: u, v, by simp [← huv]⟩

/-- tree.ts `fuzzyMatch` collapses to: trimmed lowercased search empty, or
contiguous containment in the lowercased target (the per-part tests are
subsumed because every part occurs contiguously in the target). -/
theorem treeFuzzyMatch_eq_true_iff (s t : List Char) :
    treeFuzzyMatch s t = true ↔
      trimStr (lowerStr s) = [] ∨ trimStr (lowerStr s) <:+: lowerStr t := by
  unfold treeFuzzyMatch
  simp only [Bool.or_eq_true, List.isEmpty_iff, beq_iff_eq, List.any_eq_true,
    includesStr_eq_true_iff, isPrefixOf_exists]
  constructor
  · rintro ((((h | h) | ⟨r, hr⟩) | h) | ⟨part, hpart, h⟩)
    · exact Or.inl h
    · exact Or.inr ⟨[], [], by simp [h]⟩
    · exact Or.inr ⟨[], r, by simp [hr]⟩
    · exact Or.inr h
    · have hpi : part <:+: lowerStr t :=
        (splitByP_spec isSepChar (lowerStr t)).2 part hpart
      rcases h with (h | ⟨r, hr⟩) | h
      · exact Or.inr (by rw [← h]; exact hpi)
      · exact Or.inr ((show trimStr (lowerStr s) <:+: part from
          ⟨[], r, by simp [hr]⟩).trans hpi)
      · exact Or.inr (h.trans hpi)
  · rintro (h | h)
    · exact Or.inl (Or.inl (Or.inl (Or.inl h)))
    · exact Or.inl (Or.inr h)

/-- scheduleProvider.ts `fuzzyMatch` collapses to: both strings nonempty
and the lowercased search is an in-order subsequence of the lowercased
target (contiguous matches being a special case). -/
theorem schedFuzzyMatch_eq_true_iff (s t : List Char) :
    schedFuzzyMatch s t = true ↔
      s ≠ [] ∧ t ≠ [] ∧ (lowerStr s).Sublist (lowerStr t) := by
  rcases s with _ | ⟨a, s'⟩
  · simp [schedFuzzyMatch]
  · rcases t with _ | ⟨b, t'⟩
    · simp [schedFuzzyMatch]
    · simp only [schedFuzzyMatch, List.isEmpty_cons, Bool.or_self,
        Bool.false_eq_true, if_false, Bool.or_eq_true,
        includesStr_eq_true_iff, subseqGreedy_eq_true_iff, ne_eq,
        reduceCtorEq, not_false_eq_true, true_and]
      constructor
      · rintro (h | h)
        · exact h.sublist
        · exact h
      · exact fun h => Or.inr h

/-- Digits render to characters in '0'..'9'. -/
theorem digitChar_toNat (d : Nat) (h : d < 10) :
    (digitChar d).toNat = 48 + d := by
  interval_cases d <;> rfl

/-- No digit renders to ':'. -/
theorem digitChar_ne_colon (d : Nat) : digitChar d ≠ ':' := by
  unfold digitChar
  split <;> decide

/-- Reading back a fuel-driven rendering recovers the number. -/
theorem charsToNat_natToCharsGo (fuel n : Nat) (h : n < fuel) :
    charsToNat (natToCharsGo fuel n) = n := by
  induction fuel generalizing n with
  | zero => omega
  | succ fuel' ih =>
    unfold natToCharsGo
    by_cases h10 : n < 10
    · simp [h10, charsToNat, digitChar_toNat n h10]
    · have hdiv : n / 10 < n := Nat.div_lt_self (by omega) (by omega)
      have hf : n / 10 < fuel' := by omega
      rw [if_neg h10]
      unfold charsToNat
      rw [List.foldl_append]
      have hrec := ih (n / 10) hf
      unfold charsToNat at hrec
      rw [hrec]
      have hmod : n % 10 < 10 := Nat.mod_lt n (by omega)
      simp [digitChar_toNat _ hmod]
      omega

/-- Reading back a decimal rendering recovers the number. -/
theorem charsToNat_natToChars (n : Nat) :
    charsToNat (natToChars n) = n :=
  charsToNat_natToCharsGo (n + 1) n (by omega)

/-- Decimal rendering is injective. -/
theorem natToChars_inj {m n : Nat} (h : natToChars m = natToChars n) :
    m = n := by
  have := congrArg charsToNat h
  rwa [charsToNat_natToChars, charsToNat_natToChars] at this

/-- Fuel-driven renderings never contain ':'. -/
theorem colon_not_mem_natToCharsGo (fuel n : Nat) :
    ':' ∉ natToCharsGo fuel n := by
  induction fuel generalizing n with
  | zero => simp [natToCharsGo]
  | succ fuel' ih =>
    unfold natToCharsGo
    by_cases h10 : n < 10
    · simp [h10]
      exact fun hc => digitChar_ne_colon n hc.symm
    · rw [if_neg h10]
      simp [List.mem_append]
      refine ⟨ih (n / 10), ?_⟩
      exact fun hc => digitChar_ne_colon (n % 10) hc.symm

/-- Decimal renderings never contain ':'. -/
theorem colon_not_mem_natToChars (n : Nat) : ':' ∉ natToChars n :=
  colon_not_mem_natToCharsGo (n + 1) n

/-- Two colon-separated concatenations with colon-free heads agree exactly
when head and tail agree. -/
theorem append_colon_inj {a1 a2 r1 r2 : List Char}
    (h1 : ':' ∉ a1) (h2 : ':' ∉ a2)
    (h : a1 ++ ':' :: r1 = a2 ++ ':' :: r2) : a1 = a2 ∧ r1 = r2 := by
  induction a1 generalizing a2 with
  | nil =>
    cases a2 with
    | nil => simpa using h
    | cons y u =>
      exfalso
      have : (':' : Char) = y := by simpa using congrArg (·.headD ' ') h
      exact h2 (this ▸ List.mem_cons_self y u)
  | cons x t ih =>
    cases a2 with
    | nil =>
      exfalso
      have : x = (':' : Char) := by simpa using congrArg (·.headD ' ') h
      exact h1 (this ▸ List.mem_cons_self x t)
    | cons y u =>
      simp only [List.cons_append, List.cons.injEq] at h
      obtain ⟨rfl, hrest⟩ := h
      have := ih (fun hm => h1 (List.mem_cons_of_mem x hm))
        (fun hm => h2 (List.mem_cons_of_mem x hm)) hrest
      exact ⟨by rw [this.1], this.2⟩

/-- Unfolded form of `getCacheKey`. -/
theorem getCacheKey_eq (c p : List Char) (m : Nat) :
    getCacheKey c p m = c ++ ':' :: (p ++ ':' :: natToChars m) := by
  simp [getCacheKey]

/-- With colon-free config and project names, cache keys are injective in
the (config, project, maxResults) triple. -/
theorem getCacheKey_inj {c1 p1 c2 p2 : List Char} {m1 m2 : Nat}
    (hc1 : ':' ∉ c1) (hp1 : ':' ∉ p1) (hc2 : ':' ∉ c2) (hp2 : ':' ∉ p2)
    (h : getCacheKey c1 p1 m1 = getCacheKey c2 p2 m2) :
    c1 = c2 ∧ p1 = p2 ∧ m1 = m2 := by
  rw [getCacheKey_eq, getCacheKey_eq] at h
  obtain ⟨hceq, h⟩ := append_colon_inj hc1 hc2 h
  obtain ⟨hpeq, h⟩ := append_colon_inj hp1 hp2 h
  exact ⟨hceq, hpeq, natToChars_inj h⟩

/-- With colon-free components, the `clearCache` deletion test recognizes
exactly the keys of the given (config, project) pair. -/
theorem clearTest_iff {c1 p1 c2 p2 : List Char} {m2 : Nat}
    (hc1 : ':' ∉ c1) (hp1 : ':' ∉ p1) (hc2 : ':' ∉ c2) (hp2 : ':' ∉ p2) :
    (c1 ++ ':' :: p1 ++ [':']).isPrefixOf (getCacheKey c2 p2 m2) = true ↔
      c1 = c2 ∧ p1 = p2 := by
  rw [isPrefixOf_exists]
  constructor
  · rintro ⟨r, hr⟩
    rw [getCacheKey_eq] at hr
    have hnorm : c1 ++ ':' :: p1 ++ [':'] ++ r = c1 ++ ':' :: (p1 ++ ':' :: r) := by
      simp
    rw [hnorm] at hr
    obtain ⟨hceq, hrest⟩ := append_colon_inj hc2 hc1 hr
    obtain ⟨hpeq, _⟩ := append_colon_inj hp2 hp1 hrest
    exact ⟨hceq.symm, hpeq.symm⟩
  · rintro ⟨rfl, rfl⟩
    refine ⟨natToChars m2, ?_⟩
    rw [getCacheKey_eq]
    simp

/-- Replacing the value under a different key leaves a lookup unchanged. -/
theorem cacheGet_map_replace {cache : Cache} {k k' : List Char}
    {v : CacheEntry} (h : k' ≠ k) :
    cacheGet (cache.map fun e => if e.1 = k' then (k', v) else e) k =
      cacheGet cache k := by
  induction cache with
  | nil => rfl
  | cons e rest ih =>
    by_cases he : e.1 = k'
    · have hek : ¬e.1 = k := by rw [he]; exact h
      simp only [List.map_cons, if_pos he, cacheGet]
      rw [if_neg h, if_neg hek]
      exact ih
    · simp only [List.map_cons, if_neg he, cacheGet]
      by_cases hek : e.1 = k
      · rw [if_pos hek, if_pos hek]
      · rw [if_neg hek, if_neg hek]
        exact ih

/-- Appending an entry under a different key leaves a lookup unchanged. -/
theorem cacheGet_append_one {cache : Cache} {k k' : List Char}
    {v : CacheEntry} (h : k' ≠ k) :
    cacheGet (cache ++ [(k', v)]) k = cacheGet cache k := by
  induction cache with
  | nil => simp [cacheGet, h]
  | cons e rest ih =>
    by_cases hek : e.1 = k <;> simp [cacheGet, hek, ih]

/-- Storing under a different key leaves a `cacheGet` lookup unchanged. -/
theorem cacheGet_cacheSet_ne {cache : Cache} {k k' : List Char}
    {v : CacheEntry} (h : k' ≠ k) :
    cacheGet (cacheSet cache k' v) k = cacheGet cache k := by
  unfold cacheSet
  split
  · exact cacheGet_map_replace h
  · exact cacheGet_append_one h

/-- Lookup after `clearCache(config, project)`: deleted when the key starts
with the prefix, untouched otherwise. -/
theorem cacheGet_clearCacheSpecific (cache : Cache) (c p k : List Char) :
    cacheGet (clearCacheSpecific cache c p) k =
      if (c ++ ':' :: p ++ [':']).isPrefixOf k then none
      else cacheGet cache k := by
  induction cache with
  | nil => simp [clearCacheSpecific, cacheGet]
  | cons e rest ih =>
    unfold clearCacheSpecific at ih ⊢
    rw [List.filter_cons]
    cases hpf : (c ++ ':' :: p ++ [':']).isPrefixOf e.1 with
    | true =>
      rw [if_neg (by decide)]
      rw [ih]
      by_cases hek : e.1 = k
      · subst hek
        rw [if_pos hpf, if_pos hpf]
      · simp [cacheGet, hek]
    | false =>
      rw [if_pos (by decide)]
      by_cases hek : e.1 = k
      · subst hek
        rw [if_neg (by rw [hpf]; decide)]
        simp [cacheGet]
      · simp only [cacheGet, if_neg hek]
        exact ih

/-- With nonempty arguments, `clearCache` passes its truthiness guard and
takes the prefix-deletion branch. -/
theorem clearCache_nonempty (cache : Cache) {c p : List Char}
    (hc : c ≠ []) (hp : p ≠ []) :
    clearCache cache (some c) (some p) = clearCacheSpecific cache c p := by
  unfold clearCache
  dsimp only
  rw [if_pos (by simp [List.isEmpty_iff, hc, hp])]

/-- With a missing or empty argument, `clearCache` clears everything. -/
theorem clearCache_falsy (cache : Cache) (c p : List Char) :
    clearCache cache none none = [] ∧
      clearCache cache (some []) (some p) = [] ∧
      clearCache cache (some c) (some []) = [] := by
  refine ⟨rfl, rfl, ?_⟩
  unfold clearCache
  dsimp only
  rw [if_neg (by simp)]
  rfl

/-- Replacing the value under a different region key leaves a lookup
unchanged. -/
theorem regionGet_map_replace {m : List (List Char × List TransferConfigM)}
    {r r' : List Char} {v : List TransferConfigM} (h : r' ≠ r) :
    regionGet (m.map fun e => if e.1 = r' then (r', v) else e) r =
      regionGet m r := by
  induction m with
  | nil => rfl
  | cons e rest ih =>
    by_cases he : e.1 = r'
    · have her : ¬e.1 = r := by rw [he]; exact h
      simp only [List.map_cons, if_pos he, regionGet]
      rw [if_neg h, if_neg her]
      exact ih
    · simp only [List.map_cons, if_neg he, regionGet]
      by_cases her : e.1 = r
      · rw [if_pos her, if_pos her]
      · rw [if_neg her, if_neg her]
        exact ih

/-- Appending an entry under a different region key leaves a lookup
unchanged. -/
theorem regionGet_append_one {m : List (List Char × List TransferConfigM)}
    {r r' : List Char} {v : List TransferConfigM} (h : r' ≠ r) :
    regionGet (m ++ [(r', v)]) r = regionGet m r := by
  induction m with
  | nil => simp [regionGet, h]
  | cons e rest ih =>
    by_cases her : e.1 = r <;> simp [regionGet, her, ih]

/-- Storing under a different region key leaves a lookup unchanged. -/
theorem regionGet_regionSet_ne {m : List (List Char × List TransferConfigM)}
    {r r' : List Char} {v : List TransferConfigM} (h : r' ≠ r) :
    regionGet (regionSet m r' v) r = regionGet m r := by
  unfold regionSet
  split
  · exact regionGet_map_replace h
  · exact regionGet_append_one h

/-- The bulk load of the search branch never drops or changes an existing
`configsByRegion` entry. -/
theorem loadAllRegions_preserve (env : SchedEnv) (pid : List Char)
    (s : SchedState) {r : List Char} {cfgs : List TransferConfigM}
    (h : regionGet s.configsByRegion r = some cfgs) :
    regionGet (loadAllRegions env pid s).configsByRegion r = some cfgs := by
  unfold loadAllRegions
  suffices H : ∀ (rs : List (List Char)) (st : SchedState),
      regionGet st.configsByRegion r = some cfgs →
      regionGet (rs.foldl
        (fun st r' =>
          if (regionGet st.configsByRegion r').isSome then st
          else
            match (listConfigs env.sdk pid r').1 with
            | .ok cfgs' => { st with configsByRegion := regionSet st.configsByRegion r' cfgs' }
            | .error _ => st)
        st).configsByRegion r = some cfgs by
    exact H s.regions s h
  intro rs
  induction rs with
  | nil => exact fun st hst => hst
  | cons r' rs' ih =>
    intro st hst
    apply ih
    by_cases hsome : (regionGet st.configsByRegion r').isSome
    · simp only [List.foldl_cons, if_pos hsome]
      exact hst
    · have hne : r' ≠ r := by
        intro heq
        rw [heq, hst] at hsome
        exact hsome (by simp)
      cases hcall : (listConfigs env.sdk pid r').1 with
      | ok cfgs' =>
        simp only [if_neg hsome, hcall]
        simpa [regionGet_regionSet_ne hne] using hst
      | error e =>
        simp only [if_neg hsome, hcall]
        exact hst


/-- `getChildren` never removes or replaces an existing entry of
`configsByRegion`: its state either stays put, is bulk-loaded (which only
fills absent regions), or stores one region that was absent. -/
theorem providerGetChildren_preserve (env : SchedEnv) (s : SchedState)
    (element : Option SchedItem) {r : List Char}
    {cfgs : List TransferConfigM}
    (h : regionGet s.configsByRegion r = some cfgs) :
    regionGet (providerGetChildren env s element).2.configsByRegion r =
      some cfgs := by
  unfold providerGetChildren
  split
  · exact h
  · next pid hpid =>
    split
    · dsimp only
      split
      · dsimp only
        split
        · exact loadAllRegions_preserve env pid s h
        · exact loadAllRegions_preserve env pid s h
      · dsimp only
        split
        · exact h
        · exact h
    · rcases element with _ | item
      · exact h
      · rcases item with l | ⟨rg, pj⟩ | c | ⟨c, rgn, pjn⟩
        · exact h
        · dsimp only
          cases hreg : regionGet s.configsByRegion rg with
          | some cfgs2 =>
            dsimp only
            split
            · exact h
            · exact h
          | none =>
            dsimp only
            have hne : rg ≠ r := by
              intro heq
              rw [heq, h] at hreg
              cases hreg
            cases hcall : (listConfigs env.sdk pid rg).1 with
            | error e => exact h
            | ok cfgs' =>
              dsimp only
              split
              · simpa [regionGet_regionSet_ne hne] using h
              · simpa [regionGet_regionSet_ne hne] using h
        · exact h
        · exact h

/-- `validateDate` yields "Invalid Date" or an ISO rendering of a time
value whose year lies in 2000..2100. -/
theorem validateDate_shape (d : Option Int) :
    validateDate d = strL "Invalid Date" ∨
      ∃ ms, validateDate d = isoStringOfMillis ms ∧
        2000 ≤ yearOfMillis ms ∧ yearOfMillis ms ≤ 2100 := by
  cases d with
  | none => exact Or.inl rfl
  | some ms =>
    unfold validateDate
    by_cases h : 2000 ≤ yearOfMillis ms ∧ yearOfMillis ms ≤ 2100
    · exact Or.inr ⟨ms, if_pos h, h.1, h.2⟩
    · exact Or.inl (if_neg h)

/-- C9: `formatDate` is total and its result is always "N/A", "Invalid
Date", or an ISO-8601 rendering of a time value whose year lies between
2000 and 2100; a parseable string whose year falls outside that range comes
back as "Invalid Date", never as an ISO string. -/
theorem claim_C9_formatDate_shape :
    (∀ (parse : List Char → Option Int) (v : DateValue),
        formatDate parse v = strL "N/A" ∨
        formatDate parse v = strL "Invalid Date" ∨
        ∃ ms, formatDate parse v = isoStringOfMillis ms ∧
          2000 ≤ yearOfMillis ms ∧ yearOfMillis ms ≤ 2100) ∧
    (∀ (parse : List Char → Option Int) (s : List Char) (ms : Int),
        trimStr s ≠ [] → parse s = some ms →
        (yearOfMillis ms < 2000 ∨ 2100 < yearOfMillis ms) →
        formatDate parse (.str s) = strL "Invalid Date") := by
  constructor
  · intro parse v
    induction v with
    | nullish => exact Or.inl rfl
    | str s =>
      unfold formatDate
      by_cases h1 : s.isEmpty
      · rw [if_pos h1]; exact Or.inl rfl
      · rw [if_neg h1]
        by_cases h2 : (trimStr s).isEmpty
        · rw [if_pos h2]; exact Or.inl rfl
        · rw [if_neg h2]; exact Or.inr (validateDate_shape (parse s))
    | num n =>
      unfold formatDate
      by_cases h1 : n = 0
      · rw [if_pos h1]; exact Or.inl rfl
      · rw [if_neg h1]
        exact Or.inr (validateDate_shape _)
    | dateObj d => exact Or.inr (validateDate_shape d)
    | protoTS sec ns =>
      unfold formatDate
      by_cases h1 : (sec.isSome || ns.isSome) = true
      · rw [if_pos h1]; exact Or.inr (validateDate_shape _)
      · rw [if_neg h1]; exact Or.inr (Or.inl rfl)
    | withToDate d => exact Or.inr (validateDate_shape d)
    | withToJSON j => exact Or.inr (validateDate_shape _)
    | objValue v ih => exact ih
    | objTimestamp v ih => exact ih
    | objSeconds s ns => exact Or.inr (validateDate_shape _)
    | otherObj => exact Or.inr (Or.inl rfl)
  · intro parse s ms htrim hparse hyear
    have h1 : ¬s.isEmpty = true := by
      intro habs
      rw [List.isEmpty_iff] at habs
      subst habs
      exact htrim rfl
    have h2 : ¬(trimStr s).isEmpty = true := by
      intro habs
      rw [List.isEmpty_iff] at habs
      exact htrim habs
    unfold formatDate
    rw [if_neg h1, if_neg h2, hparse]
    unfold validateDate
    dsimp only
    rw [if_neg (by rcases hyear with h | h <;> omega)]

/-- C9 witness: a string that parses to the epoch (year 1970) is rendered
as "Invalid Date". -/
theorem claim_C9_witness :
    formatDate (fun _ => some 0) (.str (strL "x")) = strL "Invalid Date" :=
  claim_C9_formatDate_shape.2 (fun _ => some 0) (strL "x") 0
    (by decide) rfl (Or.inl (by decide))

/-- C8: `stateToString` is total: strings pass through, null/undefined
yield "UNKNOWN", the enum values 1..5 yield their names, and every other
number yields "UNKNOWN". -/
theorem claim_C8_stateToString_total :
    (∀ s, stateToString (.str s) = s) ∧
    stateToString .nullish = strL "UNKNOWN" ∧
    stateToString (.enum 1) = strL "PENDING" ∧
    stateToString (.enum 2) = strL "RUNNING" ∧
    stateToString (.enum 3) = strL "SUCCEEDED" ∧
    stateToString (.enum 4) = strL "FAILED" ∧
    stateToString (.enum 5) = strL "CANCELLED" ∧
    (∀ n : Int, n ≠ 1 → n ≠ 2 → n ≠ 3 → n ≠ 4 → n ≠ 5 →
      stateToString (.enum n) = strL "UNKNOWN") := by
  refine ⟨fun s => rfl, rfl, rfl, rfl, rfl, rfl, rfl, ?_⟩
  intro n h1 h2 h3 h4 h5
  simp [stateToString, h1, h2, h3, h4, h5]

/-- C8 witness: the out-of-range enum value 7 maps to "UNKNOWN". -/
theorem claim_C8_witness : stateToString (.enum 7) = strL "UNKNOWN" :=
  claim_C8_stateToString_total.2.2.2.2.2.2.2 7
    (by decide) (by decide) (by decide) (by decide) (by decide)

/-- C3: `listConfigs` rejects an empty project ID or region with the error
"Project ID and region are required" without invoking the SDK, and
otherwise sends the request with parent "projects/P/locations/R" for
project P and region R, and dataSourceIds ["scheduled_query"]. -/
theorem claim_C3_listConfigs :
    (∀ (sdk : ListConfigsRequest → Except (List Char) (List TransferConfigM))
        (p r : List Char), p = [] ∨ r = [] →
        listConfigs sdk p r =
          (.error (strL "Project ID and region are required"), none)) ∧
    (∀ (sdk : ListConfigsRequest → Except (List Char) (List TransferConfigM))
        (p r : List Char), p ≠ [] → r ≠ [] →
        (listConfigs sdk p r).2 =
          some { parent := strL "projects/" ++ p ++ strL "/locations/" ++ r
                 dataSourceIds := [strL "scheduled_query"] }) := by
  constructor
  · intro sdk p r h
    unfold listConfigs
    rw [if_pos (by rcases h with rfl | rfl <;> simp)]
  · intro sdk p r hp hr
    unfold listConfigs
    rw [if_neg (by simp [List.isEmpty_iff, hp, hr])]
    dsimp only
    cases hsdk : sdk { parent := strL "projects/" ++ p ++ strL "/locations/" ++ r
                       dataSourceIds := [strL "scheduled_query"] } <;>
      simp [hsdk]

/-- C3 witness: an empty region is rejected without an SDK call, and a
well-formed call sends the documented request. -/
theorem claim_C3_witness :
    listConfigs (fun _ => .ok []) (strL "proj") (strL "") =
        (.error (strL "Project ID and region are required"), none) ∧
      (listConfigs (fun _ => .ok []) (strL "proj") (strL "us")).2 =
        some { parent := strL "projects/proj/locations/us"
               dataSourceIds := [strL "scheduled_query"] } := by
  constructor
  · exact claim_C3_listConfigs.1 (fun _ => .ok []) (strL "proj") (strL "")
      (Or.inr rfl)
  · have h := claim_C3_listConfigs.2 (fun _ => .ok []) (strL "proj")
      (strL "us") (by decide) (by decide)
    rw [h]
    rfl

/-- C4 counterexample: the schedule provider's fuzzyMatch accepts the
search "ac" against "abc" by in-order character scanning, although "ac" is
neither a substring of "abc" nor token-contained in it, so matching is not
just substring/token-containment checking. -/
theorem claim_C4_counterexample :
    schedFuzzyMatch (strL "ac") (strL "abc") = true ∧
      claimedFuzzyMatch (strL "ac") (strL "abc") = false := by
  constructor <;> decide

/-- C4 (amended): the schedule provider's fuzzyMatch accepts exactly the
nonempty pairs whose lowercased search is an in-order subsequence of the
lowercased target (substrings being a special case), while the resource
tree's fuzzyMatch accepts exactly an empty trimmed search or a
case-insensitive substring (its per-token tests add nothing). -/
theorem claim_C4_amended :
    (∀ s t, schedFuzzyMatch s t = true ↔
        s ≠ [] ∧ t ≠ [] ∧ (lowerStr s).Sublist (lowerStr t)) ∧
    (∀ s t, treeFuzzyMatch s t = true ↔
        trimStr (lowerStr s) = [] ∨ trimStr (lowerStr s) <:+: lowerStr t) :=
  ⟨schedFuzzyMatch_eq_true_iff, treeFuzzyMatch_eq_true_iff⟩

/-- C10: the schedule provider's fuzzyMatch rejects an empty search string
and an empty target (so an empty search term matches no transfer config),
while the resource tree's fuzzyMatch accepts every target when the trimmed
search term is empty. -/
theorem claim_C10_empty_search :
    (∀ t, schedFuzzyMatch [] t = false) ∧
    (∀ s, schedFuzzyMatch s [] = false) ∧
    (∀ s t, trimStr (lowerStr s) = [] → treeFuzzyMatch s t = true) := by
  refine ⟨fun t => rfl, fun s => ?_, fun s t h => ?_⟩
  · unfold schedFuzzyMatch
    rw [if_pos (by simp)]
  · unfold treeFuzzyMatch
    simp [h]

/-- C10 witness: a whitespace-only search term is rejected by the schedule
matcher (as the empty string) but accepted against any target by the tree
matcher. -/
theorem claim_C10_witness :
    treeFuzzyMatch (strL "  ") (strL "orders_daily") = true :=
  claim_C10_empty_search.2.2 (strL "  ") (strL "orders_daily") (by decide)

/-- C1: when the cache holds an entry under the call's key whose expiry lies
in the future, `getRunHistory` returns exactly that entry's records, leaves
the cache untouched, and never invokes `listTransferRuns`. -/
theorem claim_C1_cache_hit (env : DTSEnv) (cache : Cache)
    (configName projectId : List Char) (maxResults : Nat)
    (entry : CacheEntry)
    (hc : configName ≠ []) (hp : projectId ≠ [])
    (hentry : cacheGet cache (getCacheKey configName projectId maxResults) =
      some entry)
    (hvalid : env.now < entry.expiry) :
    getRunHistory env cache configName projectId maxResults =
      (.ok entry.data, cache, false) := by
  unfold getRunHistory
  rw [if_neg (by simp [List.isEmpty_iff, hc, hp])]
  have hcache : getCachedRunHistory cache env.now configName projectId
      maxResults = some entry.data := by
    unfold getCachedRunHistory
    rw [hentry]
    dsimp only
    rw [if_pos (by simp [isCacheValid, hvalid])]
  rw [hcache]

/-- C1 witness: a concrete valid entry is served from the cache with no
fetch. -/
theorem claim_C1_witness :
    getRunHistory
        { now := 0, runsOracle := fun _ _ => .error (strL "down"),
          jobOracle := fun _ _ => none, parse := fun _ => none }
        [(getCacheKey (strL "cfg") (strL "proj") 5,
          { data := [], timestamp := 0, expiry := 300000 })]
        (strL "cfg") (strL "proj") 5 =
      (.ok [],
        [(getCacheKey (strL "cfg") (strL "proj") 5,
          { data := [], timestamp := 0, expiry := 300000 })],
        false) :=
  claim_C1_cache_hit _ _ _ _ _
    { data := [], timestamp := 0, expiry := 300000 }
    (by decide) (by decide) (by simp [cacheGet]) (by decide)

/-- C6: an expired entry is never served (`getCachedRunHistory` returns
null), the lookup itself mutates nothing, and a store under any other key
leaves the entry's slot untouched. -/
theorem claim_C6_stale_entries :
    (∀ (cache : Cache) (now : Int) (c p : List Char) (m : Nat)
        (entry : CacheEntry),
        cacheGet cache (getCacheKey c p m) = some entry →
        entry.expiry ≤ now →
        getCachedRunHistory cache now c p m = none) ∧
    (∀ (cache : Cache) (now : Int) (c p : List Char) (m : Nat),
        applyCacheOp now cache (.lookup c p m) = cache) ∧
    (∀ (cache : Cache) (now : Int) (c p : List Char) (m : Nat)
        (d : List RunHistoryDetails) (c' p' : List Char) (m' : Nat),
        getCacheKey c' p' m' ≠ getCacheKey c p m →
        cacheGet (applyCacheOp now cache (.store c' p' m' d))
            (getCacheKey c p m) =
          cacheGet cache (getCacheKey c p m)) := by
  refine ⟨?_, fun _ _ _ _ _ => rfl, ?_⟩
  · intro cache now c p m entry hentry hexp
    unfold getCachedRunHistory
    rw [hentry]
    dsimp only
    rw [if_neg (by simp [isCacheValid]; omega)]
  · intro cache now c p m d c' p' m' hne
    exact cacheGet_cacheSet_ne hne

/-- C6 witness: an entry that expired at time 300000 is not served at time
600000, and a store under a different config leaves it in place. -/
theorem claim_C6_witness :
    getCachedRunHistory
        [(getCacheKey (strL "cfg") (strL "proj") 5,
          { data := [], timestamp := 0, expiry := 300000 })]
        600000 (strL "cfg") (strL "proj") 5 = none ∧
      cacheGet
          (applyCacheOp 600000
            [(getCacheKey (strL "cfg") (strL "proj") 5,
              { data := [], timestamp := 0, expiry := 300000 })]
            (.store (strL "other") (strL "proj") 5 []))
          (getCacheKey (strL "cfg") (strL "proj") 5) =
        some { data := [], timestamp := 0, expiry := 300000 } := by
  constructor
  · exact claim_C6_stale_entries.1 _ 600000 (strL "cfg") (strL "proj") 5
      { data := [], timestamp := 0, expiry := 300000 }
      (by simp [cacheGet]) (by decide)
  · rw [claim_C6_stale_entries.2.2 _ 600000 (strL "cfg") (strL "proj") 5 []
      (strL "other") (strL "proj") 5 (by decide)]
    simp [cacheGet]

/-- C2 counterexample: the cache key is the colon-joined string, so the
distinct triples ("a:b", "c", 1) and ("a", "b:c", 1) share the key
"a:b:c:1": a store for the first is returned for the second, and
clearCache("a", "b") deletes the entry of the pair ("a", "b:c"). -/
theorem claim_C2_counterexample :
    getCachedRunHistory
        (setCachedRunHistory [] 0 (strL "a:b") (strL "c") 1 []) 0
        (strL "a") (strL "b:c") 1 = some [] ∧
      (strL "a:b", strL "c", 1) ≠ ((strL "a", strL "b:c", 1) :
        List Char × List Char × Nat) ∧
      cacheGet
          (clearCache
            [(getCacheKey (strL "a") (strL "b:c") 1,
              { data := [], timestamp := 0, expiry := 300000 })]
            (some (strL "a")) (some (strL "b")))
          (getCacheKey (strL "a") (strL "b:c") 1) = none ∧
      ((strL "a" : List Char), (strL "b:c" : List Char)) ≠
        (strL "a", strL "b") := by
  refine ⟨by decide, by decide, by decide, by decide⟩

/-- C2 (amended): restricted to config names and project IDs that contain
no ':' character, the cache is namespaced by the (config, project,
maxResults) triple: a store under one triple is invisible to lookups under
any other triple, and, for nonempty c and p (a missing or empty argument
makes `clearCache` clear the whole cache instead), clearCache(c, p)
removes exactly the keys of the (c, p) pair, leaving entries of every
other pair unchanged. -/
theorem claim_C2_amended (c1 p1 : List Char) (m1 : Nat)
    (c2 p2 : List Char) (m2 : Nat)
    (hc1 : ':' ∉ c1) (hp1 : ':' ∉ p1) (hc2 : ':' ∉ c2) (hp2 : ':' ∉ p2) :
    ((c1, p1, m1) ≠ (c2, p2, m2) →
      ∀ (cache : Cache) (now now' : Int) (d : List RunHistoryDetails),
        getCachedRunHistory (setCachedRunHistory cache now c1 p1 m1 d)
            now' c2 p2 m2 =
          getCachedRunHistory cache now' c2 p2 m2) ∧
    (c1 ≠ [] → p1 ≠ [] →
      ∀ cache : Cache,
        cacheGet (clearCache cache (some c1) (some p1))
          (getCacheKey c1 p1 m1) = none) ∧
    (c1 ≠ [] → p1 ≠ [] → (c1, p1) ≠ (c2, p2) →
      ∀ cache : Cache,
        cacheGet (clearCache cache (some c1) (some p1))
            (getCacheKey c2 p2 m2) =
          cacheGet cache (getCacheKey c2 p2 m2)) := by
  refine ⟨?_, ?_, ?_⟩
  · intro hne cache now now' d
    have hkey : getCacheKey c1 p1 m1 ≠ getCacheKey c2 p2 m2 := by
      intro habs
      obtain ⟨hc, hp, hm⟩ := getCacheKey_inj hc1 hp1 hc2 hp2 habs
      exact hne (by rw [hc, hp, hm])
    unfold getCachedRunHistory setCachedRunHistory
    rw [cacheGet_cacheSet_ne hkey]
  · intro hc1e hp1e cache
    rw [clearCache_nonempty cache hc1e hp1e]
    rw [cacheGet_clearCacheSpecific]
    rw [if_pos ((clearTest_iff hc1 hp1 hc1 hp1).mpr ⟨rfl, rfl⟩)]
  · intro hc1e hp1e hne cache
    rw [clearCache_nonempty cache hc1e hp1e]
    rw [cacheGet_clearCacheSpecific]
    rw [if_neg ?_]
    intro habs
    obtain ⟨hc, hp⟩ := (clearTest_iff hc1 hp1 hc2 hp2).mp habs
    exact hne (by rw [hc, hp])

/-- C2 witness: with colon-free names, a store under ("cfgA", "proj", 1) is
invisible to ("cfgB", "proj", 1), clearing ("cfgA", "proj") empties its own
key, and leaves ("cfgB", "proj") untouched. -/
theorem claim_C2_witness :
    getCachedRunHistory
        (setCachedRunHistory [] 0 (strL "cfgA") (strL "proj") 1 []) 0
        (strL "cfgB") (strL "proj") 1 = none ∧
      cacheGet
          (clearCache
            [(getCacheKey (strL "cfgB") (strL "proj") 1,
              { data := [], timestamp := 0, expiry := 300000 })]
            (some (strL "cfgA")) (some (strL "proj")))
          (getCacheKey (strL "cfgB") (strL "proj") 1) =
        some { data := [], timestamp := 0, expiry := 300000 } := by
  have h := claim_C2_amended (strL "cfgA") (strL "proj") 1
    (strL "cfgB") (strL "proj") 1
    (by decide) (by decide) (by decide) (by decide)
  constructor
  · rw [h.1 (by decide) [] 0 0 []]
    rfl
  · rw [h.2.2 (by decide) (by decide) (by decide) _]
    simp [cacheGet]

/-- C5: on a cache miss with a successful `listTransferRuns`, the result
holds exactly one record per run in the same order, and a failed or absent
BigQuery job lookup yields a null `bigQueryJob` on that run's record
instead of an error or a dropped record. -/
theorem claim_C5_per_run_records (env : DTSEnv) (cache : Cache)
    (configName projectId : List Char) (maxResults : Nat)
    (runs : List TransferRunM)
    (hc : configName ≠ []) (hp : projectId ≠ [])
    (hmiss : getCachedRunHistory cache env.now configName projectId
      maxResults = none)
    (hruns : env.runsOracle configName maxResults = .ok runs) :
    ∃ details,
      (getRunHistory env cache configName projectId maxResults).1 =
          .ok details ∧
        details.length = runs.length ∧
        ∀ (i : Nat) (run : TransferRunM), runs[i]? = some run →
          ∃ d, details[i]? = some d ∧
            d.name = run.name.getD [] ∧
            d.runId = extractRunId (run.name.getD []) ∧
            d.bigQueryJob =
              findBigQueryJobDetails env projectId
                (extractRunId (run.name.getD [])) ∧
            (env.jobOracle projectId
                (strL "scheduled_query_" ++ extractRunId (run.name.getD [])) =
                  none →
              d.bigQueryJob = none) := by
  have hltr : listTransferRuns env configName maxResults = .ok runs := by
    unfold listTransferRuns
    rw [if_neg (by simp [List.isEmpty_iff, hc]), hruns]
  unfold getRunHistory
  rw [if_neg (by simp [List.isEmpty_iff, hc, hp]), hmiss, hltr]
  dsimp only
  by_cases hempty : runs.isEmpty
  · rw [if_pos hempty]
    rw [List.isEmpty_iff] at hempty
    subst hempty
    exact ⟨[], rfl, rfl, fun i run h => by simp at h⟩
  · rw [if_neg hempty]
    refine ⟨runs.map (buildRunDetail env projectId), rfl, by simp, ?_⟩
    intro i run hrun
    refine ⟨buildRunDetail env projectId run, ?_, rfl, rfl, rfl, ?_⟩
    · rw [List.getElem?_map, hrun]
      rfl
    · intro hnone
      unfold buildRunDetail
      dsimp only
      unfold findBigQueryJobDetails
      rw [hnone]

/-- C5 witness: two runs, one with a found job and one without, produce two
ordered records, the latter with a null `bigQueryJob`. -/
theorem claim_C5_witness :
    ∃ details,
      (getRunHistory
          { now := 0,
            runsOracle := fun _ _ => .ok
              [{ name := some (strL "projects/p/runs/r1"),
                 state := .enum 3, runTime := .nullish, endTime := .nullish,
                 updateTime := .nullish, params := none },
               { name := some (strL "projects/p/runs/r2"),
                 state := .enum 4, runTime := .nullish, endTime := .nullish,
                 updateTime := .nullish, params := none }],
            jobOracle := fun _ _ => none, parse := fun _ => none }
          [] (strL "cfg") (strL "proj") 5).1 = .ok details ∧
        details.length = 2 ∧
        ∃ d, details[1]? = some d ∧ d.bigQueryJob = none := by
  obtain ⟨details, hok, hlen, hidx⟩ :=
    claim_C5_per_run_records
      { now := 0,
        runsOracle := fun _ _ => .ok
          [{ name := some (strL "projects/p/runs/r1"),
             state := .enum 3, runTime := .nullish, endTime := .nullish,
             updateTime := .nullish, params := none },
           { name := some (strL "projects/p/runs/r2"),
             state := .enum 4, runTime := .nullish, endTime := .nullish,
             updateTime := .nullish, params := none }],
        jobOracle := fun _ _ => none, parse := fun _ => none }
      [] (strL "cfg") (strL "proj") 5 _
      (by decide) (by decide) rfl rfl
  obtain ⟨d, hd, _, _, _, hjob⟩ := hidx 1
    { name := some (strL "projects/p/runs/r2"),
      state := .enum 4, runTime := .nullish, endTime := .nullish,
      updateTime := .nullish, params := none } rfl
  exact ⟨details, hok, hlen, d, hd, hjob rfl⟩

/-- C7: the per-region config cache has no expiry: `getChildren` is
time-independent and never drops an existing entry; entries vanish only
through `refresh` (also reached via `setProjectId`), while
`setSearchFilter`, `clearSearch`, `getSearchFilter` and `getTreeItem`
leave `configsByRegion` untouched. -/
theorem claim_C7_no_expiry :
    (∀ (s : SchedState) (f : List Char),
      (setSearchFilter f s).configsByRegion = s.configsByRegion) ∧
    (∀ s : SchedState,
      (clearSearch s).configsByRegion = s.configsByRegion) ∧
    (∀ s : SchedState, (getSearchFilter s).2 = s) ∧
    (∀ (s : SchedState) (e : SchedItem), (getTreeItem e s).2 = s) ∧
    (∀ s : SchedState, (refresh s).configsByRegion = []) ∧
    (∀ (s : SchedState) (p : List Char),
      (setProjectId p s).configsByRegion = []) ∧
    (∀ (env : SchedEnv) (s : SchedState) (element : Option SchedItem)
        (r : List Char) (cfgs : List TransferConfigM),
      regionGet s.configsByRegion r = some cfgs →
      regionGet (providerGetChildren env s element).2.configsByRegion r =
        some cfgs) :=
  ⟨fun _ _ => rfl, fun _ => rfl, fun _ => rfl, fun _ _ => rfl,
    fun _ => rfl, fun _ _ => rfl,
    fun env s element _ _ h => providerGetChildren_preserve env s element h⟩

/-- C7 witness: a cached region survives a later `getChildren` call on the
region list. -/
theorem claim_C7_witness :
    regionGet
        (providerGetChildren ⟨fun _ => .error (strL "down")⟩
          { regions := [strL "us", strL "eu"],
            configsByRegion := [(strL "us", [])],
            searchFilter := [], projectId := some (strL "proj") }
          none).2.configsByRegion
        (strL "us") = some [] :=
  claim_C7_no_expiry.2.2.2.2.2.2 ⟨fun _ => .error (strL "down")⟩
    { regions := [strL "us", strL "eu"],
      configsByRegion := [(strL "us", [])],
      searchFilter := [], projectId := some (strL "proj") }
    none (strL "us") [] (by simp [regionGet])
